import Mathlib

/-!
Verification development for the tabular utility module `PreprocessingUtils`
(`src/utils/general_utils.py`) of the cost-benefit analysis pipeline.

Tables are modelled as lists of row structures; Python strings are Lean
`String`s (a structure over `List Char` in this toolchain), and the string
operations the module uses (`str.split('|')`, `'|'.join`, `str.replace`,
regex suffix stripping anchored at end-of-string) are given explicit
executable models below.
-/

namespace CbUtils

/-- Model of Python `s.split('|')` at the character-list level: splits on
every `'|'`, keeping empty segments (so `"".split('|') == [""]` and
`"a||b".split('|') == ["a","","b"]`, as in Python). -/
def splitPipe : List Char → List (List Char)
  | [] => [[]]
  | c :: cs =>
    match splitPipe cs with
    | [] => [[]]
    | t :: ts => if c = '|' then [] :: t :: ts else (c :: t) :: ts

/-- Model of Python `'|'.join(tokens)` at the character-list level. -/
def joinPipe : List (List Char) → List Char
  | [] => []
  | [t] => t
  | t :: ts => t ++ '|' :: joinPipe ts

theorem splitPipe_cons_eq (c : Char) (cs t : List Char) (ts : List (List Char))
    (hs : splitPipe cs = t :: ts) :
    splitPipe (c :: cs) = if c = '|' then [] :: t :: ts else (c :: t) :: ts := by
  have h0 : splitPipe (c :: cs) =
      match splitPipe cs with
      | [] => [[]]
      | t :: ts => if c = '|' then [] :: t :: ts else (c :: t) :: ts := rfl
  rw [h0, hs]

theorem splitPipe_ne_nil (l : List Char) : splitPipe l ≠ [] := by
  cases l with
  | nil => simp [splitPipe]
  | cons c cs =>
    cases hs : splitPipe cs with
    | nil =>
      have h0 : splitPipe (c :: cs) =
          match splitPipe cs with
          | [] => [[]]
          | t :: ts => if c = '|' then [] :: t :: ts else (c :: t) :: ts := rfl
      rw [h0, hs]
      simp
    | cons t ts =>
      rw [splitPipe_cons_eq c cs t ts hs]
      by_cases h : c = '|' <;> simp [h]

theorem splitPipe_no_pipe (l : List Char) :
    ∀ t ∈ splitPipe l, '|' ∉ t := by
  induction l with
  | nil =>
    intro t ht
    have : splitPipe [] = [[]] := rfl
    rw [this] at ht
    simp at ht
    simp [ht]
  | cons c cs ih =>
    cases hs : splitPipe cs with
    | nil => exact absurd hs (splitPipe_ne_nil cs)
    | cons u us =>
      rw [hs] at ih
      intro t ht
      rw [splitPipe_cons_eq c cs u us hs] at ht
      by_cases hc : c = '|'
      · rw [if_pos hc] at ht
        rcases List.mem_cons.mp ht with h1 | h1
        · subst h1; simp
        · exact ih t h1
      · rw [if_neg hc] at ht
        rcases List.mem_cons.mp ht with h1 | h1
        · subst h1
          intro hmem
          rcases List.mem_cons.mp hmem with h2 | h2
          · exact hc h2.symm
          · exact ih u (by simp) h2
        · exact ih t (List.mem_cons_of_mem u h1)

theorem splitPipe_of_no_pipe (t : List Char) (h : '|' ∉ t) :
    splitPipe t = [t] := by
  induction t with
  | nil => rfl
  | cons c cs ih =>
    have hc : c ≠ '|' := fun hc => h (by simp [hc])
    have hcs : '|' ∉ cs := fun hm => h (by simp [hm])
    rw [splitPipe_cons_eq c cs cs [] (ih hcs), if_neg hc]

theorem splitPipe_append_pipe (t r : List Char) (h : '|' ∉ t) :
    splitPipe (t ++ '|' :: r) = t :: splitPipe r := by
  induction t with
  | nil =>
    cases hs : splitPipe r with
    | nil => exact absurd hs (splitPipe_ne_nil r)
    | cons u us =>
      rw [List.nil_append, splitPipe_cons_eq '|' r u us hs, if_pos rfl]
  | cons c cs ih =>
    have hc : c ≠ '|' := fun hc => h (by simp [hc])
    have hcs : '|' ∉ cs := fun hm => h (by simp [hm])
    rw [List.cons_append,
      splitPipe_cons_eq c (cs ++ '|' :: r) cs (splitPipe r) (ih hcs), if_neg hc]

/-- Round trip: splitting the join of pipe-free tokens recovers the tokens. -/
theorem splitPipe_joinPipe (ts : List (List Char)) (hne : ts ≠ [])
    (h : ∀ t ∈ ts, '|' ∉ t) : splitPipe (joinPipe ts) = ts := by
  induction ts with
  | nil => exact absurd rfl hne
  | cons t ts ih =>
    cases ts with
    | nil =>
      simp only [joinPipe]
      exact splitPipe_of_no_pipe t (h t (by simp))
    | cons u us =>
      have hj : joinPipe (t :: u :: us) = t ++ '|' :: joinPipe (u :: us) := rfl
      rw [hj, splitPipe_append_pipe t _ (h t (by simp))]
      rw [ih (by simp) (fun v hv => h v (by simp [hv]))]

/-- Scanning loop of Python `s.replace(pat, repl)` (non-empty `pat`):
replaces every occurrence of `pat` left to right, non-overlapping, scanning
the original string.  The extra `Nat` is fuel making the recursion
structural (each step consumes at least one character, so fuel equal to the
string length always suffices); it does not change the function, see
`replaceAllFuel_irrel`. -/
def replaceAllFuel (pat repl : List Char) : Nat → List Char → List Char
  | _, [] => []
  | 0, l => l
  | fuel + 1, c :: cs =>
    if pat ≠ [] ∧ pat <+: (c :: cs) then
      repl ++ replaceAllFuel pat repl fuel ((c :: cs).drop pat.length)
    else
      c :: replaceAllFuel pat repl fuel cs

/-- Python `s.replace(pat, repl)` on character lists. -/
def replaceAll (pat repl l : List Char) : List Char :=
  replaceAllFuel pat repl l.length l

/-- Python `s.replace(pat, repl)` on `String`s. -/
def pyReplace (s pat repl : String) : String :=
  ⟨replaceAll pat.data repl.data s.data⟩

theorem replaceAllFuel_irrel (pat repl : List Char) : ∀ f1 f2 l,
    l.length ≤ f1 → l.length ≤ f2 →
    replaceAllFuel pat repl f1 l = replaceAllFuel pat repl f2 l := by
  intro f1
  induction f1 with
  | zero =>
    intro f2 l h1 _
    have : l = [] := List.eq_nil_of_length_eq_zero (Nat.le_zero.mp h1)
    subst this
    cases f2 <;> rfl
  | succ g1 ih =>
    intro f2 l h1 h2
    cases l with
    | nil => cases f2 <;> rfl
    | cons c cs =>
      cases f2 with
      | zero => simp at h2
      | succ g2 =>
        show (if pat ≠ [] ∧ pat <+: (c :: cs) then
            repl ++ replaceAllFuel pat repl g1 ((c :: cs).drop pat.length)
          else c :: replaceAllFuel pat repl g1 cs) =
          (if pat ≠ [] ∧ pat <+: (c :: cs) then
            repl ++ replaceAllFuel pat repl g2 ((c :: cs).drop pat.length)
          else c :: replaceAllFuel pat repl g2 cs)
        by_cases hp : pat ≠ [] ∧ pat <+: (c :: cs)
        · rw [if_pos hp, if_pos hp]
          have hlen : ((c :: cs).drop pat.length).length ≤ cs.length := by
            have hpos : 0 < pat.length := List.length_pos.mpr hp.1
            rw [List.length_drop, List.length_cons]
            omega
          rw [ih g2 _ (le_trans hlen (Nat.le_of_succ_le_succ h1))
            (le_trans hlen (Nat.le_of_succ_le_succ h2))]
        · rw [if_neg hp, if_neg hp]
          rw [ih g2 cs (Nat.le_of_succ_le_succ h1) (Nat.le_of_succ_le_succ h2)]

theorem replaceAll_cons (pat repl : List Char) (c : Char) (cs : List Char) :
    replaceAll pat repl (c :: cs) =
      if pat ≠ [] ∧ pat <+: (c :: cs) then
        repl ++ replaceAll pat repl ((c :: cs).drop pat.length)
      else
        c :: replaceAll pat repl cs := by
  show (if pat ≠ [] ∧ pat <+: (c :: cs) then
      repl ++ replaceAllFuel pat repl cs.length ((c :: cs).drop pat.length)
    else c :: replaceAllFuel pat repl cs.length cs) = _
  by_cases hp : pat ≠ [] ∧ pat <+: (c :: cs)
  · rw [if_pos hp, if_pos hp]
    have hlen : ((c :: cs).drop pat.length).length ≤ cs.length := by
      have hpos : 0 < pat.length := List.length_pos.mpr hp.1
      rw [List.length_drop, List.length_cons]
      omega
    rw [replaceAllFuel_irrel pat repl cs.length _ _ hlen le_rfl]
    rfl
  · rw [if_neg hp, if_neg hp]
    rfl

theorem replaceAll_eq_self_of_no_occ (pat repl l : List Char)
    (h : ¬ pat <:+: l) : replaceAll pat repl l = l := by
  induction l with
  | nil => rfl
  | cons c cs ih =>
    rw [replaceAll_cons]
    have hnp : ¬ (pat ≠ [] ∧ pat <+: (c :: cs)) := by
      rintro ⟨-, hp⟩
      exact h hp.isInfix
    rw [if_neg hnp]
    rw [ih (fun hi => h (hi.trans (List.suffix_cons c cs).isInfix))]

theorem replaceAll_append_of_eq (pat repl rest : List Char) (hne : pat ≠ []) :
    replaceAll pat repl (pat ++ rest) =
      repl ++ replaceAll pat repl rest := by
  obtain ⟨p, ps, hp⟩ : ∃ p ps, pat = p :: ps := by
    cases pat with
    | nil => exact absurd rfl hne
    | cons p ps => exact ⟨p, ps, rfl⟩
  subst hp
  rw [List.cons_append, replaceAll_cons,
    if_pos ⟨hne, ⟨rest, (List.cons_append p ps rest).symm⟩⟩]
  congr 1
  rw [List.length_cons, List.drop_succ_cons, List.drop_left]

/-! ## `remove_suffix_from_transformations` (general_utils.py lines 68-100)

The Python code compiles the regex `(_LOW|_LOWEST|_HIGHEST|_HIGHER|_HIGH|
_LOWER|_FROMTECH|_URBPLAN)$` and runs `re.sub(pattern, '', token)` on every
`'|'`-separated token.  Since the pattern is anchored at `$`, `re.sub`
replaces the leftmost occurrence of a listed alternative that ends exactly
at the end of the token (after which the scan is at the end of the string,
so at most one replacement happens per call).  No listed alternative is a
suffix of another one (`suffixes_pairwise_not_suffix` below), so at most one
alternative can terminate any given token, and the regex substitution is
exactly: remove the unique listed suffix of the token if one exists. -/

/-- The `suffixes_to_remove` list from the source, in source order. -/
def suffixes_to_remove : List String :=
  ["_LOW", "_LOWEST", "_HIGHEST", "_HIGHER", "_HIGH", "_LOWER",
   "_FROMTECH", "_URBPLAN"]

/-- No listed alternative is a suffix of a different listed alternative,
so the anchored regex can match a given token in at most one way. -/
theorem suffixes_pairwise_not_suffix :
    ∀ s1 ∈ suffixes_to_remove, ∀ s2 ∈ suffixes_to_remove,
      s1.data <:+ s2.data → s1 = s2 := by decide

/-- Model of `re.sub(r'(_LOW|...|_URBPLAN)$', '', t)` on one token. -/
def stripSuffixOnce (t : List Char) : List Char :=
  match suffixes_to_remove.find? (fun s => decide (s.data <:+ t)) with
  | some s => t.take (t.length - s.data.length)
  | none => t

/-- The per-record cleaning function `clean_transformation_specification`:
split on `'|'`, strip one listed suffix from the end of each token,
rejoin with `'|'`. -/
def clean_transformation_specification (specification : String) : String :=
  ⟨joinPipe ((splitPipe specification.data).map stripSuffixOnce)⟩

/-- A row of the merged attribute table, as consumed by
`remove_suffix_from_transformations` (only the column it touches, plus the
join key it leaves alone). -/
structure AttrRow where
  strategy_id : String
  transformation_specification : String
  deriving DecidableEq

/-- The table operation `remove_suffix_from_transformations`: applies the
cleaning function to
the `transformation_specification` column of every row. -/
def remove_suffix_from_transformations (attr_df : List AttrRow) : List AttrRow :=
  attr_df.map (fun r =>
    { r with transformation_specification :=
        clean_transformation_specification r.transformation_specification })

theorem stripSuffixOnce_of_no_suffix (t : List Char)
    (h : ∀ s ∈ suffixes_to_remove, ¬ s.data <:+ t) :
    stripSuffixOnce t = t := by
  unfold stripSuffixOnce
  have hn : suffixes_to_remove.find? (fun s => decide (s.data <:+ t)) = none := by
    rw [List.find?_eq_none]
    intro s hs
    simp [h s hs]
  rw [hn]

theorem stripSuffixOnce_of_suffix (t : List Char) (s : String)
    (hs : s ∈ suffixes_to_remove) (hsuf : s.data <:+ t) :
    stripSuffixOnce t ++ s.data = t := by
  unfold stripSuffixOnce
  cases hf : suffixes_to_remove.find? (fun u => decide (u.data <:+ t)) with
  | none =>
    rw [List.find?_eq_none] at hf
    exact absurd (by simp [hsuf]) (hf s hs)
  | some u =>
    have hu1 : u.data <:+ t := by
      have := List.find?_some hf
      simpa using this
    have hu2 : u ∈ suffixes_to_remove := List.mem_of_find?_eq_some hf
    have hus : u = s := by
      rcases List.suffix_or_suffix_of_suffix hu1 hsuf with h1 | h1
      · exact suffixes_pairwise_not_suffix u hu2 s hs h1
      · exact (suffixes_pairwise_not_suffix s hs u hu2 h1).symm
    subst hus
    obtain ⟨p, hp⟩ := hu1
    subst hp
    show List.take ((p ++ u.data).length - u.data.length) (p ++ u.data) ++ u.data
        = p ++ u.data
    rw [List.length_append, Nat.add_sub_cancel, List.take_left]

theorem stripSuffixOnce_no_pipe (t : List Char) (h : '|' ∉ t) :
    '|' ∉ stripSuffixOnce t := by
  unfold stripSuffixOnce
  cases suffixes_to_remove.find? (fun s => decide (s.data <:+ t)) with
  | none => exact h
  | some s =>
    intro hmem
    exact h (List.take_subset _ _ hmem)

theorem clean_clean_of_no_stacked (spec : String)
    (h : ∀ t ∈ splitPipe spec.data, ∀ s ∈ suffixes_to_remove,
        ¬ s.data <:+ stripSuffixOnce t) :
    clean_transformation_specification
      (clean_transformation_specification spec) =
    clean_transformation_specification spec := by
  unfold clean_transformation_specification
  have hdata : (⟨joinPipe ((splitPipe spec.data).map stripSuffixOnce)⟩ : String).data
      = joinPipe ((splitPipe spec.data).map stripSuffixOnce) := rfl
  rw [hdata]
  have hne : (splitPipe spec.data).map stripSuffixOnce ≠ [] := by
    intro hcon
    exact splitPipe_ne_nil spec.data (List.map_eq_nil_iff.mp hcon)
  have hfree : ∀ u ∈ (splitPipe spec.data).map stripSuffixOnce, '|' ∉ u := by
    intro u hu
    rcases List.mem_map.mp hu with ⟨t, ht, rfl⟩
    exact stripSuffixOnce_no_pipe t (splitPipe_no_pipe spec.data t ht)
  rw [splitPipe_joinPipe _ hne hfree]
  have hmap : ((splitPipe spec.data).map stripSuffixOnce).map stripSuffixOnce
      = (splitPipe spec.data).map stripSuffixOnce := by
    rw [List.map_map]
    apply List.map_congr_left
    intro t ht
    exact stripSuffixOnce_of_no_suffix (stripSuffixOnce t) (h t ht)
  rw [hmap]

/-- C5: `remove_suffix_from_transformations` splits each
`transformation_specification` on `"|"` and removes from the end of each
token at most one suffix from the fixed set: a token ending in no listed
suffix is unchanged; a token ending in a listed suffix loses exactly that
suffix; a listed suffix not at the end of a token is not removed; and
`"TX:ABC_LOW|TX:DEF_HIGHEST"` cleans to `"TX:ABC|TX:DEF"`. -/
theorem remove_suffix_from_transformations_spec :
    (∀ t : List Char, ∀ s ∈ suffixes_to_remove, s.data <:+ t →
        stripSuffixOnce t ++ s.data = t) ∧
    (∀ t : List Char, (∀ s ∈ suffixes_to_remove, ¬ s.data <:+ t) →
        stripSuffixOnce t = t) ∧
    (∀ attr_df : List AttrRow,
        (remove_suffix_from_transformations attr_df).map (·.strategy_id) =
          attr_df.map (·.strategy_id)) ∧
    clean_transformation_specification "TX:ABC_LOW|TX:DEF_HIGHEST"
      = "TX:ABC|TX:DEF" ∧
    clean_transformation_specification "TX:ABC_LOWX|TX_HIGH:DEF"
      = "TX:ABC_LOWX|TX_HIGH:DEF" := by
  refine ⟨stripSuffixOnce_of_suffix, stripSuffixOnce_of_no_suffix, ?_, ?_, ?_⟩
  · intro attr_df
    rw [remove_suffix_from_transformations, List.map_map]
    rfl
  · decide
  · decide

/-- C5 witness: the suffix-removal conjunct applied to the concrete token
`"TX:ABC_LOW"` and suffix `"_LOW"`. -/
theorem remove_suffix_from_transformations_spec_witness :
    stripSuffixOnce "TX:ABC_LOW".data ++ "_LOW".data = "TX:ABC_LOW".data :=
  remove_suffix_from_transformations_spec.1 "TX:ABC_LOW".data "_LOW"
    (by decide) (by decide)

/-- C4 counterexample: `remove_suffix_from_transformations` is not
idempotent.  On the specification `"TX:ABC_LOW_LOW"` one application strips
a single terminal `"_LOW"` (yielding `"TX:ABC_LOW"`), and a second
application strips another one (yielding `"TX:ABC"`), so applying the
operation twice differs from applying it once. -/
theorem remove_suffix_from_transformations_not_idempotent :
    remove_suffix_from_transformations (remove_suffix_from_transformations
      [⟨"strategy_1", "TX:ABC_LOW_LOW"⟩]) ≠
    remove_suffix_from_transformations [⟨"strategy_1", "TX:ABC_LOW_LOW"⟩] := by
  decide

/-- C4 (amended): `remove_suffix_from_transformations` is idempotent on
every attribute table in which no token of a `transformation_specification`
still ends in a listed suffix after one stripping (in particular whenever
no token carries two stacked suffixes). -/
theorem remove_suffix_from_transformations_idempotent
    (attr_df : List AttrRow)
    (h : ∀ r ∈ attr_df, ∀ t ∈ splitPipe r.transformation_specification.data,
        ∀ s ∈ suffixes_to_remove, ¬ s.data <:+ stripSuffixOnce t) :
    remove_suffix_from_transformations (remove_suffix_from_transformations attr_df)
      = remove_suffix_from_transformations attr_df := by
  unfold remove_suffix_from_transformations
  rw [List.map_map]
  apply List.map_congr_left
  intro r hr
  have : clean_transformation_specification
      (clean_transformation_specification r.transformation_specification)
      = clean_transformation_specification r.transformation_specification :=
    clean_clean_of_no_stacked r.transformation_specification (h r hr)
  simp [this]

/-- C4 witness: idempotence on a concrete table whose tokens carry at most
one listed suffix. -/
theorem remove_suffix_from_transformations_idempotent_witness :
    remove_suffix_from_transformations (remove_suffix_from_transformations
      [⟨"strategy_1", "TX:ABC_LOW|TX:DEF_HIGHEST"⟩]) =
    remove_suffix_from_transformations
      [⟨"strategy_1", "TX:ABC_LOW|TX:DEF_HIGHEST"⟩] :=
  remove_suffix_from_transformations_idempotent
    [⟨"strategy_1", "TX:ABC_LOW|TX:DEF_HIGHEST"⟩] (by decide)

/-! ## `check_missing_transformations` (general_utils.py lines 102-142) -/

/-- Lexicographic (code-point) comparison of character lists: the order
Python uses to compare and sort strings. -/
def charListLe : List Char → List Char → Bool
  | [], _ => true
  | _ :: _, [] => false
  | a :: as, b :: bs =>
    if a < b then true else if b < a then false else charListLe as bs

/-- Python string `<=` (code-point lexicographic). -/
def pyStrLe (a b : String) : Bool := charListLe a.data b.data

/-- The comparison `pyStrLe` as a relation, for sortedness statements. -/
def pyStrLeRel (a b : String) : Prop := pyStrLe a b = true

instance : DecidableRel pyStrLeRel := fun a b =>
  inferInstanceAs (Decidable (pyStrLe a b = true))

theorem charListLe_trans : ∀ a b c : List Char,
    charListLe a b = true → charListLe b c = true → charListLe a c = true
  | [], _, _, _, _ => rfl
  | _ :: _, [], _, hab, _ => by simp [charListLe] at hab
  | _ :: _, _ :: _, [], _, hbc => by simp [charListLe] at hbc
  | x :: xs, y :: ys, z :: zs, hab, hbc => by
    simp only [charListLe] at hab hbc ⊢
    rcases lt_trichotomy x y with hxy | hxy | hxy
    · rcases lt_trichotomy y z with hyz | hyz | hyz
      · rw [if_pos (lt_trans hxy hyz)]
      · subst hyz
        rw [if_pos hxy]
      · rw [if_neg (lt_asymm hyz), if_pos hyz] at hbc
        exact absurd hbc (by simp)
    · subst hxy
      rcases lt_trichotomy x z with hyz | hyz | hyz
      · rw [if_pos hyz]
      · subst hyz
        simp only [lt_self_iff_false, if_false] at hab hbc ⊢
        exact charListLe_trans xs ys zs hab hbc
      · rw [if_neg (lt_asymm hyz), if_pos hyz] at hbc
        exact absurd hbc (by simp)
    · rw [if_neg (lt_asymm hxy), if_pos hxy] at hab
      exact absurd hab (by simp)

theorem charListLe_total : ∀ a b : List Char,
    charListLe a b = true ∨ charListLe b a = true
  | [], _ => Or.inl rfl
  | _ :: _, [] => Or.inr rfl
  | x :: xs, y :: ys => by
    simp only [charListLe]
    rcases lt_trichotomy x y with hxy | hxy | hxy
    · left
      rw [if_pos hxy]
    · subst hxy
      simp only [lt_self_iff_false, if_false]
      exact charListLe_total xs ys
    · right
      rw [if_pos hxy]

instance : IsTrans String pyStrLeRel :=
  ⟨fun a b c => charListLe_trans a.data b.data c.data⟩

instance : IsTotal String pyStrLeRel :=
  ⟨fun a b => charListLe_total a.data b.data⟩

/-- Python `s.split('|')` on `String`s. -/
def pySplitPipe (s : String) : List String :=
  (splitPipe s.data).map (fun t => ⟨t⟩)

/-- A row of the transformation cost definitions table (only the column the
module reads). -/
structure TransformationCostRow where
  transformation_code : String
  deriving DecidableEq

/-- A row of an attribute table as consumed by
`check_missing_transformations` and `build_attribute_strategy_code`: the
strategy key and a possibly null (`NaN`) `transformation_specification`. -/
structure StrategyAttrRow where
  strategy_code : String
  transformation_specification : Option String
  deriving DecidableEq

/-- Observable outcome of `check_missing_transformations`: either a console
warning plus a CSV report written to the fixed path, or the OK message.
The function is total: it never raises. -/
inductive CheckOutcome where
  | report (output_path : String) (missing_transformations : List String)
  | noMissing
  deriving DecidableEq

def missing_report_path : String := "debug/missing_transformations_report.csv"

/-- All `'|'`-tokens over the non-null specification values
(`dropna` then split), with multiplicity. -/
def experimentTokens (attributes_df : List StrategyAttrRow) : List String :=
  (attributes_df.filterMap (·.transformation_specification)).flatMap pySplitPipe

/-- The check `check_missing_transformations`: Python computes
`sorted(set(tokens) - set(known))`; a finite set of strings has exactly one
ascending enumeration, modelled here as sorting the deduplicated filtered
token list. -/
def check_missing_transformations (attributes_df : List StrategyAttrRow)
    (transformation_cost_definitions : List TransformationCostRow) :
    CheckOutcome :=
  let experiment_transformations := experimentTokens attributes_df
  let tf_costs_transformations :=
    transformation_cost_definitions.map (·.transformation_code)
  let missing_transformations :=
    List.insertionSort pyStrLeRel
      ((experiment_transformations.filter
         (fun t => !(tf_costs_transformations.contains t))).dedup)
  if missing_transformations.isEmpty then
    CheckOutcome.noMissing
  else
    CheckOutcome.report missing_report_path missing_transformations

/-- C8: `check_missing_transformations` computes the `'|'`-tokens of the
non-null specifications minus the known `transformation_code`s: when every
token is known it prints OK and writes nothing; otherwise it reports, at
the fixed path, a sorted duplicate-free list holding exactly the unknown
tokens; and on attribute specs `{"A|B", "C"}` with known codes `{A, C}` the
reported list is exactly `["B"]`.  The outcome type is total, so the check
is never fatal. -/
theorem check_missing_transformations_spec
    (attributes_df : List StrategyAttrRow)
    (transformation_cost_definitions : List TransformationCostRow) :
    ((∀ t ∈ experimentTokens attributes_df,
        t ∈ transformation_cost_definitions.map (·.transformation_code)) →
      check_missing_transformations attributes_df transformation_cost_definitions
        = CheckOutcome.noMissing) ∧
    ((∃ t ∈ experimentTokens attributes_df,
        t ∉ transformation_cost_definitions.map (·.transformation_code)) →
      ∃ missing,
        check_missing_transformations attributes_df transformation_cost_definitions
          = CheckOutcome.report missing_report_path missing ∧
        missing ≠ [] ∧ missing.Nodup ∧ List.Sorted pyStrLeRel missing ∧
        (∀ t, t ∈ missing ↔ t ∈ experimentTokens attributes_df ∧
          t ∉ transformation_cost_definitions.map (·.transformation_code))) ∧
    check_missing_transformations
        [⟨"s1", some "A|B"⟩, ⟨"s2", some "C"⟩] [⟨"A"⟩, ⟨"C"⟩]
      = CheckOutcome.report missing_report_path ["B"] := by
  refine ⟨?_, ?_, by decide⟩
  · intro hall
    have hfil : (experimentTokens attributes_df).filter
        (fun t => !((transformation_cost_definitions.map
          (·.transformation_code)).contains t)) = [] := by
      rw [List.filter_eq_nil_iff]
      intro a ha
      simpa using hall a ha
    simp only [check_missing_transformations]
    rw [hfil]
    simp
  · rintro ⟨t0, ht0, hnk⟩
    set known := transformation_cost_definitions.map (·.transformation_code)
      with hknown
    set missing := List.insertionSort pyStrLeRel
      (((experimentTokens attributes_df).filter
        (fun t => !(known.contains t))).dedup) with hmissing
    have hmem : ∀ t, t ∈ missing ↔
        t ∈ experimentTokens attributes_df ∧ t ∉ known := by
      intro t
      rw [hmissing, (List.perm_insertionSort pyStrLeRel _).mem_iff,
        List.mem_dedup, List.mem_filter]
      simp [List.elem_iff]
    have hne : missing ≠ [] :=
      List.ne_nil_of_mem ((hmem t0).mpr ⟨ht0, hnk⟩)
    refine ⟨missing, ?_, hne, ?_, ?_, hmem⟩
    · simp only [check_missing_transformations]
      rw [← hknown, ← hmissing, if_neg (by simp [hne])]
    · exact (List.perm_insertionSort pyStrLeRel _).nodup_iff.mpr
        (List.nodup_dedup _)
    · exact List.sorted_insertionSort pyStrLeRel _

/-- C8 witness: the OK branch at a concrete table whose tokens are all
known. -/
theorem check_missing_transformations_spec_witness :
    check_missing_transformations [⟨"s1", some "A|B"⟩] [⟨"A"⟩, ⟨"B"⟩]
      = CheckOutcome.noMissing :=
  (check_missing_transformations_spec [⟨"s1", some "A|B"⟩] [⟨"A"⟩, ⟨"B"⟩]).1
    (by decide)

/-! ## `get_default_transformation_codes` (general_utils.py lines 203-223) -/

/-- A row of the transformer code table fetched from GitHub. -/
structure TransformerRow where
  transformer_code : String
  deriving DecidableEq

/-- The function `get_default_transformation_codes`: takes the
`transformer_code` column
as a list, removes the first `'TFR:BASE'` entry if present (Python
`list.remove`), and applies `code.replace('TFR:', 'TX:')` — which replaces
every occurrence of the substring, not only a leading one — to every
remaining code. -/
def get_default_transformation_codes (transformer_df : List TransformerRow) :
    List String :=
  let column_names := transformer_df.map (·.transformer_code)
  let column_names :=
    if "TFR:BASE" ∈ column_names then column_names.erase "TFR:BASE"
    else column_names
  column_names.map (fun code => pyReplace code "TFR:" "TX:")

/-- If the output of the `'TFR:' → 'TX:'` replacement starts with a
character other than `'T'`, that character came unreplaced from the input
(the replacement text starts with `'T'`). -/
theorem tfr_replace_head (l : List Char) (d : Char) (out : List Char)
    (hdT : d ≠ 'T')
    (h : replaceAll "TFR:".data "TX:".data l = d :: out) :
    ∃ cs, l = d :: cs ∧ out = replaceAll "TFR:".data "TX:".data cs := by
  cases l with
  | nil => exact absurd h.symm (List.cons_ne_nil d out)
  | cons c cs =>
    rw [replaceAll_cons] at h
    by_cases hp : ("TFR:".data ≠ [] ∧ "TFR:".data <+: (c :: cs))
    · rw [if_pos hp] at h
      have hTX : "TX:".data = 'T' :: 'X' :: ':' :: [] := rfl
      rw [hTX] at h
      injection h with h1 _
      exact absurd h1 (Ne.symm hdT)
    · rw [if_neg hp] at h
      injection h with h1 h2
      exact ⟨cs, by rw [h1], h2.symm⟩

/-- No output of the `'TFR:' → 'TX:'` replacement starts with `"TFR:"`:
a leading `'T'` can only come from an emitted `"TX:"`, whose second
character is not `'F'`; any other leading run of characters is copied
verbatim from a position where `"TFR:"` did not match. -/
theorem tfr_replace_no_tfr_head (l : List Char) :
    ¬ ("TFR:".data <+: replaceAll "TFR:".data "TX:".data l) := by
  rintro ⟨t, ht⟩
  have hTFR : "TFR:".data = 'T' :: 'F' :: 'R' :: ':' :: [] := rfl
  cases l with
  | nil => exact List.cons_ne_nil _ _ (by rw [hTFR] at ht; exact ht)
  | cons c cs =>
    rw [replaceAll_cons] at ht
    by_cases hp : ("TFR:".data ≠ [] ∧ "TFR:".data <+: (c :: cs))
    · rw [if_pos hp] at ht
      have hTX : "TX:".data = 'T' :: 'X' :: ':' :: [] := rfl
      rw [hTFR, hTX] at ht
      injection ht with _ ht2
      injection ht2 with hFX _
      exact absurd hFX (by decide)
    · rw [if_neg hp] at ht
      rw [hTFR] at ht
      injection ht with h1 h2
      obtain ⟨cs1, hcs1, hout1⟩ :=
        tfr_replace_head cs 'F' _ (by decide) h2.symm
      obtain ⟨cs2, hcs2, hout2⟩ :=
        tfr_replace_head cs1 'R' _ (by decide) hout1.symm
      obtain ⟨cs3, hcs3, _⟩ :=
        tfr_replace_head cs2 ':' _ (by decide) hout2.symm
      apply hp
      refine ⟨by decide, ⟨cs3, ?_⟩⟩
      rw [hTFR, ← h1, hcs1, hcs2, hcs3]
      rfl

/-- The spec's reading of the rewrite, for comparison: rewrite only a
leading `"TFR:"` and leave the code otherwise unmodified. -/
def tfrRewriteSpecReading (code : String) : String :=
  if "TFR:".data <+: code.data then ⟨"TX:".data ++ code.data.drop 4⟩
  else code

/-- C9 counterexample: on a transformer code in which `"TFR:"` also occurs
after the start, `get_default_transformation_codes` rewrites every
occurrence (`"TFR:ATFR:B"` becomes `"TX:ATX:B"`), not only the leading one
as the claim states (`"TX:ATFR:B"`), so codes are not otherwise
unmodified. -/
theorem get_default_transformation_codes_not_prefix_only :
    get_default_transformation_codes [⟨"TFR:ATFR:B"⟩]
      ≠ [tfrRewriteSpecReading "TFR:ATFR:B"] ∧
    get_default_transformation_codes [⟨"TFR:ATFR:B"⟩] = ["TX:ATX:B"] ∧
    tfrRewriteSpecReading "TFR:ATFR:B" = "TX:ATFR:B" := by
  refine ⟨by decide, by decide, by decide⟩

/-- C9 (amended): `get_default_transformation_codes` returns the
`transformer_code` column as a list, in order, with the first `"TFR:BASE"`
entry removed if present, and with every occurrence of `"TFR:"` replaced by
`"TX:"` in the remaining codes; consequently no code of the result starts
with `"TFR:"` and the result contains no `"TFR:BASE"`.  A code whose only
occurrence of `"TFR:"` is the leading one is rewritten exactly at that
occurrence, and a code with no occurrence at all is unmodified. -/
theorem get_default_transformation_codes_spec :
    (∀ transformer_df : List TransformerRow,
      ∀ code ∈ get_default_transformation_codes transformer_df,
        ¬ ("TFR:".data <+: code.data) ∧ code ≠ "TFR:BASE") ∧
    (∀ rest : String, ¬ ("TFR:".data <:+: rest.data) →
      pyReplace ("TFR:" ++ rest) "TFR:" "TX:" = "TX:" ++ rest) ∧
    (∀ code : String, ¬ ("TFR:".data <:+: code.data) →
      pyReplace code "TFR:" "TX:" = code) ∧
    get_default_transformation_codes
        [⟨"TFR:BASE"⟩, ⟨"TFR:AGRC_DEC_LOSSES"⟩, ⟨"TFR:PFLO_BASE"⟩]
      = ["TX:AGRC_DEC_LOSSES", "TX:PFLO_BASE"] := by
  refine ⟨?_, ?_, ?_, by decide⟩
  · intro transformer_df code hcode
    simp only [get_default_transformation_codes, List.mem_map] at hcode
    obtain ⟨src, _, rfl⟩ := hcode
    constructor
    · exact tfr_replace_no_tfr_head src.data
    · intro hbase
      have : "TFR:".data <+: (pyReplace src "TFR:" "TX:").data := by
        rw [hbase]
        decide
      exact tfr_replace_no_tfr_head src.data this
  · intro rest hocc
    have : pyReplace ("TFR:" ++ rest) "TFR:" "TX:"
        = ⟨replaceAll "TFR:".data "TX:".data ("TFR:".data ++ rest.data)⟩ := by
      simp [pyReplace, String.data_append]
    rw [this, replaceAll_append_of_eq _ _ _ (by decide),
      replaceAll_eq_self_of_no_occ _ _ _ hocc]
    apply String.ext
    simp [String.data_append]
  · intro code hocc
    simp [pyReplace, replaceAll_eq_self_of_no_occ _ _ _ hocc]

/-- C9 witness: the prefix-rewrite conjunct at the concrete code
`"TFR:PFLO_BASE"`, and the no-occurrence conjunct at `"OTHER"`. -/
theorem get_default_transformation_codes_spec_witness :
    pyReplace ("TFR:" ++ "PFLO_BASE") "TFR:" "TX:" = "TX:" ++ "PFLO_BASE" ∧
    pyReplace "OTHER" "TFR:" "TX:" = "OTHER" :=
  ⟨get_default_transformation_codes_spec.2.1 "PFLO_BASE" (by decide),
   get_default_transformation_codes_spec.2.2.1 "OTHER" (by decide)⟩

/-! ## `build_attribute_strategy_code` (general_utils.py lines 226-265) -/

/-- A row of the strategy × transformation-code indicator matrix: the
strategy code and the 0/1 cells, one per known transformation code, in
column order. -/
structure MatrixRow where
  strategy_code : String
  cells : List (String × Nat)
  deriving DecidableEq

/-- The token list the source derives for one strategy: filter the
attribute table for the strategy's rows, take the first match (`.iloc[0]`),
and split its non-null specification on `'|'`; no match or a null
specification contributes no tokens. -/
def strategyTokenList (attr_data_df : List StrategyAttrRow)
    (strategy_code : String) : List String :=
  match attr_data_df.filter (fun r => r.strategy_code == strategy_code) with
  | [] => []
  | r :: _ =>
    match r.transformation_specification with
    | some transformations => pySplitPipe transformations
    | none => []

/-- The builder `build_attribute_strategy_code`, parameterised by the
already-fetched
transformer table (the source fetches it from the URL and derives the
column names with `get_default_transformation_codes`).  One matrix row per
strategy in list order; a cell is 1 exactly when its column name occurs
among the strategy's tokens. -/
def build_attribute_strategy_code (transformer_df : List TransformerRow)
    (strategies_list : List String) (attr_data_df : List StrategyAttrRow) :
    List MatrixRow :=
  let column_names := get_default_transformation_codes transformer_df
  strategies_list.map (fun strategy_code =>
    { strategy_code := strategy_code,
      cells := column_names.map (fun col =>
        (col, if (strategyTokenList attr_data_df strategy_code).contains col
          then 1 else 0)) })

/-- When strategy codes are unique in the attribute table (the data-model
invariant: one attribute record per strategy), filtering for one code
yields nothing or a single row. -/
theorem filter_strategy_nodup (attr : List StrategyAttrRow)
    (hnodup : (attr.map (·.strategy_code)).Nodup) (sc : String) :
    attr.filter (fun r => r.strategy_code == sc) = [] ∨
    ∃ r, r ∈ attr ∧ r.strategy_code = sc ∧
      attr.filter (fun r => r.strategy_code == sc) = [r] := by
  induction attr with
  | nil => exact Or.inl rfl
  | cons a l ih =>
    rw [List.map_cons, List.nodup_cons] at hnodup
    obtain ⟨hna, hnl⟩ := hnodup
    by_cases ha : a.strategy_code = sc
    · right
      refine ⟨a, by simp, ha, ?_⟩
      rw [List.filter_cons_of_pos (by simp [ha])]
      have hfl : l.filter (fun r => r.strategy_code == sc) = [] := by
        rw [List.filter_eq_nil_iff]
        intro b hb
        simp only [beq_iff_eq]
        intro hbc
        apply hna
        rw [ha, ← hbc]
        exact List.mem_map_of_mem _ hb
      rw [hfl]
    · rw [List.filter_cons_of_neg (by simp [ha])]
      rcases ih hnl with h | ⟨r, hr, hrc, hf⟩
      · exact Or.inl h
      · exact Or.inr ⟨r, List.mem_cons_of_mem a hr, hrc, hf⟩

/-- C6: provided the attribute table has one row per strategy code (the
data-model invariant), `build_attribute_strategy_code` produces one row per
strategy in list order, whose cell for `(strategy, code)` is 1 exactly when
some attribute row for that strategy has a non-null specification whose
`'|'`-tokens contain that code, and 0 otherwise (tokens that are not known
codes are ignored); concretely, a strategy with specification
`"TX:A|TX:B"` against known codes `[TX:A, TX:B, TX:C]` yields the cell row
`[1,1,0]`, and an absent strategy or a null specification yields all
zeros. -/
theorem build_attribute_strategy_code_spec :
    (∀ (transformer_df : List TransformerRow) (strategies_list : List String)
       (attr_data_df : List StrategyAttrRow),
      (attr_data_df.map (·.strategy_code)).Nodup →
      build_attribute_strategy_code transformer_df strategies_list attr_data_df
        = strategies_list.map (fun sc =>
            { strategy_code := sc,
              cells := (get_default_transformation_codes transformer_df).map
                (fun col => (col,
                  if attr_data_df.any (fun r => r.strategy_code == sc &&
                      match r.transformation_specification with
                      | some spec => (pySplitPipe spec).contains col
                      | none => false) then 1 else 0)) })) ∧
    build_attribute_strategy_code
        [⟨"TFR:A"⟩, ⟨"TFR:B"⟩, ⟨"TFR:C"⟩]
        ["S1", "S2", "S3"]
        [⟨"S1", some "TX:A|TX:B"⟩, ⟨"S3", none⟩]
      = [⟨"S1", [("TX:A", 1), ("TX:B", 1), ("TX:C", 0)]⟩,
         ⟨"S2", [("TX:A", 0), ("TX:B", 0), ("TX:C", 0)]⟩,
         ⟨"S3", [("TX:A", 0), ("TX:B", 0), ("TX:C", 0)]⟩] := by
  refine ⟨?_, by decide⟩
  intro transformer_df strategies_list attr_data_df hnodup
  have hcells : ∀ sc col : String,
      (strategyTokenList attr_data_df sc).contains col
      = attr_data_df.any (fun r => r.strategy_code == sc &&
          match r.transformation_specification with
          | some spec => (pySplitPipe spec).contains col
          | none => false) := by
    intro sc col
    unfold strategyTokenList
    rcases filter_strategy_nodup attr_data_df hnodup sc with hf | ⟨r, hr, hrc, hf⟩
    · rw [hf]
      have hany : attr_data_df.any (fun r => r.strategy_code == sc &&
          match r.transformation_specification with
          | some spec => (pySplitPipe spec).contains col
          | none => false) = false := by
        rw [Bool.eq_false_iff]
        intro hany
        rw [List.any_eq_true] at hany
        obtain ⟨u, hu, hpu⟩ := hany
        rw [Bool.and_eq_true] at hpu
        have : u ∈ attr_data_df.filter (fun q => q.strategy_code == sc) :=
          List.mem_filter.mpr ⟨hu, hpu.1⟩
        rw [hf] at this
        exact absurd this (List.not_mem_nil u)
      rw [hany]
      rfl
    · rw [hf]
      have hany : attr_data_df.any (fun r => r.strategy_code == sc &&
          match r.transformation_specification with
          | some spec => (pySplitPipe spec).contains col
          | none => false)
          = (match r.transformation_specification with
            | some spec => (pySplitPipe spec).contains col
            | none => false) := by
        cases hm : (match r.transformation_specification with
            | some spec => (pySplitPipe spec).contains col
            | none => false) with
        | true =>
          rw [List.any_eq_true]
          exact ⟨r, hr, by rw [Bool.and_eq_true, beq_iff_eq, hm]; exact ⟨hrc, rfl⟩⟩
        | false =>
          rw [Bool.eq_false_iff]
          intro hany
          rw [List.any_eq_true] at hany
          obtain ⟨u, hu, hpu⟩ := hany
          rw [Bool.and_eq_true, beq_iff_eq] at hpu
          have humem : u ∈ attr_data_df.filter (fun q => q.strategy_code == sc) :=
            List.mem_filter.mpr ⟨hu, by rw [beq_iff_eq]; exact hpu.1⟩
          rw [hf, List.mem_singleton] at humem
          subst humem
          rw [hm] at hpu
          exact Bool.false_ne_true hpu.2
      rw [hany]
      show (match r.transformation_specification with
        | some transformations => pySplitPipe transformations
        | none => []).contains col
        = (match r.transformation_specification with
          | some spec => (pySplitPipe spec).contains col
          | none => false)
      cases r.transformation_specification with
      | some spec => rfl
      | none => rfl
  unfold build_attribute_strategy_code
  apply List.map_congr_left
  intro sc _
  have hc : (get_default_transformation_codes transformer_df).map
        (fun col => (col,
          if (strategyTokenList attr_data_df sc).contains col then 1 else 0))
      = (get_default_transformation_codes transformer_df).map
        (fun col => (col,
          if attr_data_df.any (fun r => r.strategy_code == sc &&
              match r.transformation_specification with
              | some spec => (pySplitPipe spec).contains col
              | none => false) then 1 else 0)) := by
    apply List.map_congr_left
    intro col _
    rw [hcells sc col]
  rw [hc]

/-- C6 witness: the general characterisation applied to the concrete
tables of the example (whose attribute strategy codes are distinct). -/
theorem build_attribute_strategy_code_spec_witness :
    build_attribute_strategy_code [⟨"TFR:A"⟩] ["S1"] [⟨"S1", some "TX:A"⟩]
      = [⟨"S1", [("TX:A", 1)]⟩] := by
  rw [build_attribute_strategy_code_spec.1 [⟨"TFR:A"⟩] ["S1"]
    [⟨"S1", some "TX:A"⟩] (by decide)]
  decide

/-! ## `fetch_csv_from_github` (general_utils.py lines 172-201) -/

/-- Result of the external `pd.read_csv(raw_url)` call: a parsed table
(rows of string cells) or a raised exception. -/
inductive ReadCsvOutcome where
  | ok (table : List (List String))
  | raise (msg : String)

/-- Body of the `try` block of `fetch_csv_from_github`: `pd.read_csv`,
then `raise ValueError(...)` if the parsed table is empty.  An
`Except.error` is an exception travelling to the enclosing handler. -/
def fetch_try_body (read_csv : String → ReadCsvOutcome) (raw_url : String) :
    Except String (List (List String)) :=
  match read_csv raw_url with
  | .raise e => .error e
  | .ok df =>
    if df.isEmpty then
      Except.error ("The CSV file fetched from " ++ raw_url ++ " is empty.")
    else
      Except.ok df

/-- The fetcher `fetch_csv_from_github`, parameterised by the external
reader.  The
codomain separates an uncaught exception (`Except.error` — never produced,
because the bare `except Exception` catches everything raised inside the
`try`, including the function's own empty-table `ValueError`) from a
normal return of `None` (`Except.ok none`) or of the parsed table
(`Except.ok (some df)`). -/
def fetch_csv_from_github (read_csv : String → ReadCsvOutcome)
    (url : String) : Except String (Option (List (List String))) :=
  let raw_url := pyReplace (pyReplace url "/blob/" "/")
    "github.com" "raw.githubusercontent.com"
  match fetch_try_body read_csv raw_url with
  | .ok df => Except.ok (some df)
  | .error _ => Except.ok none

/-- C3: contrary to the claim (and to the function's own docstring), the
empty-table `ValueError` raised inside the `try` block is caught by the
same function's bare `except Exception`, so an empty CSV makes
`fetch_csv_from_github` return `None` exactly like a fetch/parse failure
does — no error reaches the caller in either case, while a non-empty
table is returned normally. -/
theorem fetch_csv_from_github_empty_is_swallowed :
    fetch_csv_from_github (fun _ => ReadCsvOutcome.ok [])
        "https://github.com/org/repo/blob/main/data.csv"
      = Except.ok none ∧
    fetch_csv_from_github (fun _ => ReadCsvOutcome.raise "connection error")
        "https://github.com/org/repo/blob/main/data.csv"
      = Except.ok none ∧
    fetch_csv_from_github (fun _ => ReadCsvOutcome.ok [["h", "v"]])
        "https://github.com/org/repo/blob/main/data.csv"
      = Except.ok (some [["h", "v"]]) :=
  ⟨rfl, rfl, rfl⟩

/-! ## `load_parameters_from_yaml` (general_utils.py lines 16-50) -/

/-- Result of `open` + `yaml.safe_load`: missing file, parse error, or a
flat key/value mapping. -/
inductive YamlReadOutcome where
  | fileNotFound
  | yamlError (msg : String)
  | ok (params : List (String × String))

/-- Outcome of `load_parameters_from_yaml`: the returned dictionary, or
the re-raised `FileNotFoundError`, or a `ValueError` (used both for parse
errors and for missing keys — the missing-key `ValueError` is raised after
the `try` body's `safe_load` has succeeded and is not caught, since the
handlers only catch `FileNotFoundError` and `yaml.YAMLError`). -/
inductive LoadOutcome where
  | ok (params : List (String × String))
  | fileNotFoundError (msg : String)
  | valueError (msg : String)
  deriving DecidableEq

/-- The `required_keys` list from the source, in source order. -/
def required_keys : List String :=
  ["country_id", "attr_primary_file_name", "attr_strategy_file_name",
   "ssp_output_data_file_name", "comparison_strategy_code",
   "transformation_names_url"]

/-- The loader `load_parameters_from_yaml`, parameterised by the external
file-read /
YAML-parse step. -/
def load_parameters_from_yaml (safe_load : String → YamlReadOutcome)
    (yaml_file_path : String) : LoadOutcome :=
  match safe_load yaml_file_path with
  | .fileNotFound =>
    LoadOutcome.fileNotFoundError
      ("The specified YAML file was not found: " ++ yaml_file_path)
  | .yamlError e =>
    LoadOutcome.valueError ("Error parsing YAML file: " ++ e)
  | .ok params =>
    let missing_keys := required_keys.filter
      (fun key => !(params.any (fun p => p.1 == key)))
    if missing_keys.isEmpty then
      LoadOutcome.ok (required_keys.filterMap (fun key =>
        (params.find? (fun p => p.1 == key)).map (fun p => (key, p.2))))
    else
      LoadOutcome.valueError ("Missing required parameters in YAML file: "
        ++ String.intercalate ", " missing_keys)

theorem extract_required_of_all_present :
    ∀ (keys : List String) (params : List (String × String)),
    (∀ key ∈ keys, params.any (fun p => p.1 == key) = true) →
    (keys.filterMap (fun key =>
        (params.find? (fun p => p.1 == key)).map (fun p => (key, p.2)))).map
          Prod.fst = keys ∧
    ∀ p ∈ keys.filterMap (fun key =>
        (params.find? (fun p => p.1 == key)).map (fun p => (key, p.2))),
      params.find? (fun q => q.1 == p.1) = some (p.1, p.2) := by
  intro keys
  induction keys with
  | nil => intro params _; exact ⟨rfl, by intro p hp; simp at hp⟩
  | cons k ks ih =>
    intro params hall
    have hk := hall k (by simp)
    rw [List.any_eq_true] at hk
    obtain ⟨x, hx, hpx⟩ := hk
    have hsome : (params.find? (fun p => p.1 == k)).isSome := by
      rw [List.find?_isSome]
      exact ⟨x, hx, hpx⟩
    obtain ⟨x0, hx0⟩ := Option.isSome_iff_exists.mp hsome
    have hx01 : x0.1 = k := by
      have := List.find?_some hx0
      rwa [beq_iff_eq] at this
    obtain ⟨hmap, hfind⟩ := ih params (fun key hkey => hall key (by simp [hkey]))
    rw [List.filterMap_cons]
    rw [hx0]
    constructor
    · simp [hmap]
    · intro p hp
      rcases List.mem_cons.mp hp with hp | hp
      · subst hp
        show params.find? (fun q => q.1 == k) = some (k, x0.2)
        rw [hx0]
        have : x0 = (k, x0.2) := by
          rw [Prod.ext_iff]
          exact ⟨hx01, rfl⟩
        rw [← this]
      · exact hfind p hp

/-- C7: `load_parameters_from_yaml` succeeds exactly when the file reads,
parses, and contains all six required keys, returning exactly those six
keys (in order) with their values from the mapping; a parsed mapping
missing keys yields a `ValueError` naming the missing keys; a missing file
yields a `FileNotFoundError` naming the path; unparsable YAML yields a
parse `ValueError`. -/
theorem load_parameters_from_yaml_spec
    (safe_load : String → YamlReadOutcome) (yaml_file_path : String) :
    (∀ params, safe_load yaml_file_path = YamlReadOutcome.ok params →
      (∀ key ∈ required_keys, params.any (fun p => p.1 == key) = true) →
      ∃ m, load_parameters_from_yaml safe_load yaml_file_path
          = LoadOutcome.ok m ∧
        m.map Prod.fst = required_keys ∧
        ∀ p ∈ m, params.find? (fun q => q.1 == p.1) = some (p.1, p.2)) ∧
    (∀ params, safe_load yaml_file_path = YamlReadOutcome.ok params →
      required_keys.filter (fun key => !(params.any (fun p => p.1 == key)))
        ≠ [] →
      load_parameters_from_yaml safe_load yaml_file_path
        = LoadOutcome.valueError ("Missing required parameters in YAML file: "
            ++ String.intercalate ", " (required_keys.filter
              (fun key => !(params.any (fun p => p.1 == key)))))) ∧
    (safe_load yaml_file_path = YamlReadOutcome.fileNotFound →
      load_parameters_from_yaml safe_load yaml_file_path
        = LoadOutcome.fileNotFoundError
            ("The specified YAML file was not found: " ++ yaml_file_path)) ∧
    (∀ e, safe_load yaml_file_path = YamlReadOutcome.yamlError e →
      load_parameters_from_yaml safe_load yaml_file_path
        = LoadOutcome.valueError ("Error parsing YAML file: " ++ e)) ∧
    ((∃ m, load_parameters_from_yaml safe_load yaml_file_path
        = LoadOutcome.ok m) ↔
      (∃ params, safe_load yaml_file_path = YamlReadOutcome.ok params ∧
        ∀ key ∈ required_keys, params.any (fun p => p.1 == key) = true)) := by
  have hok : ∀ params, safe_load yaml_file_path = YamlReadOutcome.ok params →
      (∀ key ∈ required_keys, params.any (fun p => p.1 == key) = true) →
      ∃ m, load_parameters_from_yaml safe_load yaml_file_path
          = LoadOutcome.ok m ∧
        m.map Prod.fst = required_keys ∧
        ∀ p ∈ m, params.find? (fun q => q.1 == p.1) = some (p.1, p.2) := by
    intro params hsl hall
    have hfil : required_keys.filter
        (fun key => !(params.any (fun p => p.1 == key))) = [] := by
      rw [List.filter_eq_nil_iff]
      intro key hkey
      simp [hall key hkey]
    refine ⟨required_keys.filterMap (fun key =>
      (params.find? (fun p => p.1 == key)).map (fun p => (key, p.2))), ?_, ?_, ?_⟩
    · simp only [load_parameters_from_yaml, hsl]
      rw [hfil]
      rfl
    · exact (extract_required_of_all_present required_keys params hall).1
    · exact (extract_required_of_all_present required_keys params hall).2
  refine ⟨hok, ?_, ?_, ?_, ?_⟩
  · intro params hsl hne
    simp only [load_parameters_from_yaml, hsl]
    rw [if_neg (by simpa [List.isEmpty_iff] using hne)]
  · intro hsl
    simp only [load_parameters_from_yaml, hsl]
  · intro e hsl
    simp only [load_parameters_from_yaml, hsl]
  · constructor
    · rintro ⟨m, hm⟩
      cases hsl : safe_load yaml_file_path with
      | fileNotFound =>
        simp only [load_parameters_from_yaml, hsl] at hm
        exact LoadOutcome.noConfusion hm
      | yamlError e =>
        simp only [load_parameters_from_yaml, hsl] at hm
        exact LoadOutcome.noConfusion hm
      | ok params =>
        refine ⟨params, rfl, ?_⟩
        intro key hkey
        by_contra hno
        have hmem : key ∈ required_keys.filter
            (fun key => !(params.any (fun p => p.1 == key))) := by
          rw [List.mem_filter]
          exact ⟨hkey, by simp [Bool.eq_false_iff.mpr hno]⟩
        have hne : required_keys.filter
            (fun key => !(params.any (fun p => p.1 == key))) ≠ [] :=
          List.ne_nil_of_mem hmem
        simp only [load_parameters_from_yaml, hsl] at hm
        rw [if_neg (by simpa [List.isEmpty_iff] using hne)] at hm
        exact LoadOutcome.noConfusion hm
    · rintro ⟨params, hsl, hall⟩
      obtain ⟨m, hm, -, -⟩ := hok params hsl hall
      exact ⟨m, hm⟩

/-- C7 witness: a concrete parsed configuration with all six required keys
plus an extra key yields exactly the six required entries. -/
theorem load_parameters_from_yaml_spec_witness :
    ∃ m, load_parameters_from_yaml
        (fun _ => YamlReadOutcome.ok
          [("country_id", "CR"), ("attr_primary_file_name", "a.csv"),
           ("attr_strategy_file_name", "b.csv"),
           ("ssp_output_data_file_name", "c.csv"),
           ("comparison_strategy_code", "BASE"),
           ("transformation_names_url", "https://example"),
           ("extra_key", "ignored")]) "config.yaml"
      = LoadOutcome.ok m ∧
      m.map Prod.fst = required_keys ∧
      ∀ p ∈ m,
        [("country_id", "CR"), ("attr_primary_file_name", "a.csv"),
         ("attr_strategy_file_name", "b.csv"),
         ("ssp_output_data_file_name", "c.csv"),
         ("comparison_strategy_code", "BASE"),
         ("transformation_names_url", "https://example"),
         ("extra_key", "ignored")].find? (fun q => q.1 == p.1)
          = some (p.1, p.2) :=
  (load_parameters_from_yaml_spec _ "config.yaml").1 _ rfl (by decide)

/-! ## `perform_postprocessing` (general_utils.py lines 293-329) -/

/-- A result record: the columns `perform_postprocessing` reads or writes.
`value` is a rational; the Python float operations involved (assigning 0,
multiplying by 0.5) are exact, so ℚ models them faithfully on the values
concerned.  The column called `variable` carries a trailing underscore
because `variable` is a Lean keyword. -/
structure ResultRow where
  strategy_code : String
  variable_ : String
  time_period : Int
  value : ℚ
  deriving DecidableEq

/-- Python `any(k in x for k in keys)`: some key occurs in `x` as a
substring. -/
def matchesAny (keys : List String) (x : String) : Bool :=
  keys.any (fun k => decide (k.data <:+: x.data))

/-- The keyword list of the transport masks. -/
def transport_cb_keys : List String := ["congestion", "road_safety"]

/-- The keyword list of the waste-management mask. -/
def waso_cb_keys : List String := ["cb:waso:technical_cost:waste_management"]

def cond_transport_cb_issues_better_base (r : ResultRow) : Bool :=
  r.strategy_code == "PFLO:BETTER_BASE"
    && matchesAny transport_cb_keys r.variable_

def cond_transport_cb_issues_supply_side_tech (r : ResultRow) : Bool :=
  r.strategy_code == "PFLO:SUPPLY_SIDE_TECH"
    && matchesAny transport_cb_keys r.variable_

def cond_cut_ben_in_half_all_plur (r : ResultRow) : Bool :=
  r.strategy_code == "PFLO:ALL_PLUR"
    && matchesAny transport_cb_keys r.variable_

def cond_cut_ben_in_half_all_non_stopping_def_plur (r : ResultRow) : Bool :=
  r.strategy_code == "PFLO:ALL_NO_STOPPING_DEFORESTATION_PLUR"
    && matchesAny transport_cb_keys r.variable_

def cond_waso_cb_issue (r : ResultRow) : Bool :=
  r.strategy_code == "PFLO:SUPPLY_SIDE_TECH"
    && matchesAny waso_cb_keys r.variable_

/-- Rules 1-3 of `perform_postprocessing`, in source order.  The five
`.loc` masks read only `strategy_code` and `variable`, which no rule
writes, so the sequential dataframe updates act rowwise as below
(`*= 0.5` is multiplication by one half). -/
def applyCbCorrections (r : ResultRow) : ResultRow :=
  let v1 := if cond_transport_cb_issues_better_base r then 0 else r.value
  let v2 := if cond_transport_cb_issues_supply_side_tech r then 0 else v1
  let v3 := if cond_cut_ben_in_half_all_plur r then v2 * (1/2) else v2
  let v4 := if cond_cut_ben_in_half_all_non_stopping_def_plur r
    then v3 * (1/2) else v3
  let v5 := if cond_waso_cb_issue r then 0 else v4
  { r with value := v5 }

/-- The duplicate created for one pre-`TX_START` row by the time shift:
`variable` gets `"_shifted"` plus `str(time_period + TIME_PERIOD_0)`
appended, and `time_period` is shifted forward by `TX_START`. -/
def shiftRow (txStart t0 : Int) (r : ResultRow) : ResultRow :=
  { r with
    variable_ := r.variable_ ++ "_shifted" ++ toString (r.time_period + t0),
    time_period := r.time_period + txStart }

/-- The rule engine `perform_postprocessing`, parameterised by the external
constants
`SSP_GLOBAL_TIME_PERIOD_TX_START` and `SSP_GLOBAL_TIME_PERIOD_0` (imported
from `cb_config`, which is not part of this module): rules 1-3, then the
time shift appending the shifted duplicates of the pre-`TX_START` rows,
then zeroing `value` on every row of the combined table whose
`time_period` is below `TX_START`. -/
def perform_postprocessing (txStart t0 : Int)
    (results_all_pp : List ResultRow) : List ResultRow :=
  let df := results_all_pp.map applyCbCorrections
  let res_pre2025 := df.filter (fun r => decide (r.time_period < txStart))
  let df2 := df ++ res_pre2025.map (shiftRow txStart t0)
  df2.map (fun r =>
    if r.time_period < txStart then { r with value := 0 } else r)

/-- C1: the three corrective rules, in order: rows of `PFLO:BETTER_BASE` or
`PFLO:SUPPLY_SIDE_TECH` whose variable mentions congestion or road safety
are zeroed; rows of `PFLO:ALL_PLUR` or
`PFLO:ALL_NO_STOPPING_DEFORESTATION_PLUR` with such a variable are halved;
`PFLO:SUPPLY_SIDE_TECH` waste-management-cost rows are zeroed; rows
matching none of the masks keep their value; and concretely a
`PFLO:BETTER_BASE` congestion row worth 100 ends at 0 while the same row
under `PFLO:ALL_PLUR` ends at 50 (both at `time_period ≥ TX_START`, so
rule 4 leaves them alone). -/
theorem perform_postprocessing_rules123 :
    (∀ r : ResultRow,
      (r.strategy_code = "PFLO:BETTER_BASE" ∨
       r.strategy_code = "PFLO:SUPPLY_SIDE_TECH") →
      matchesAny transport_cb_keys r.variable_ = true →
      (applyCbCorrections r).value = 0) ∧
    (∀ r : ResultRow,
      (r.strategy_code = "PFLO:ALL_PLUR" ∨
       r.strategy_code = "PFLO:ALL_NO_STOPPING_DEFORESTATION_PLUR") →
      matchesAny transport_cb_keys r.variable_ = true →
      (applyCbCorrections r).value = r.value * (1/2)) ∧
    (∀ r : ResultRow,
      r.strategy_code = "PFLO:SUPPLY_SIDE_TECH" →
      matchesAny waso_cb_keys r.variable_ = true →
      (applyCbCorrections r).value = 0) ∧
    (∀ r : ResultRow,
      cond_transport_cb_issues_better_base r = false →
      cond_transport_cb_issues_supply_side_tech r = false →
      cond_cut_ben_in_half_all_plur r = false →
      cond_cut_ben_in_half_all_non_stopping_def_plur r = false →
      cond_waso_cb_issue r = false →
      applyCbCorrections r = r) ∧
    perform_postprocessing 10 2015
        [⟨"PFLO:BETTER_BASE", "congestion_benefit", 10, 100⟩]
      = [⟨"PFLO:BETTER_BASE", "congestion_benefit", 10, 0⟩] ∧
    perform_postprocessing 10 2015
        [⟨"PFLO:ALL_PLUR", "congestion_benefit", 10, 100⟩]
      = [⟨"PFLO:ALL_PLUR", "congestion_benefit", 10, 50⟩] := by
  refine ⟨?_, ?_, ?_, ?_, by decide, ?_⟩
  · intro r hs hm
    unfold applyCbCorrections
    rcases hs with hs | hs
    · have c1 : cond_transport_cb_issues_better_base r = true := by
        simp [cond_transport_cb_issues_better_base, hs, hm]
      have c3 : cond_cut_ben_in_half_all_plur r = false := by
        simp [cond_cut_ben_in_half_all_plur, hs]
      have c4 : cond_cut_ben_in_half_all_non_stopping_def_plur r = false := by
        simp [cond_cut_ben_in_half_all_non_stopping_def_plur, hs]
      have c5 : cond_waso_cb_issue r = false := by
        simp [cond_waso_cb_issue, hs]
      simp [c1, c3, c4, c5]
    · have c2 : cond_transport_cb_issues_supply_side_tech r = true := by
        simp [cond_transport_cb_issues_supply_side_tech, hs, hm]
      have c3 : cond_cut_ben_in_half_all_plur r = false := by
        simp [cond_cut_ben_in_half_all_plur, hs]
      have c4 : cond_cut_ben_in_half_all_non_stopping_def_plur r = false := by
        simp [cond_cut_ben_in_half_all_non_stopping_def_plur, hs]
      cases c5 : cond_waso_cb_issue r <;> simp [c2, c3, c4, c5]
  · intro r hs hm
    unfold applyCbCorrections
    rcases hs with hs | hs
    · have c1 : cond_transport_cb_issues_better_base r = false := by
        simp [cond_transport_cb_issues_better_base, hs]
      have c2 : cond_transport_cb_issues_supply_side_tech r = false := by
        simp [cond_transport_cb_issues_supply_side_tech, hs]
      have c3 : cond_cut_ben_in_half_all_plur r = true := by
        simp [cond_cut_ben_in_half_all_plur, hs, hm]
      have c4 : cond_cut_ben_in_half_all_non_stopping_def_plur r = false := by
        simp [cond_cut_ben_in_half_all_non_stopping_def_plur, hs]
      have c5 : cond_waso_cb_issue r = false := by
        simp [cond_waso_cb_issue, hs]
      simp [c1, c2, c3, c4, c5]
    · have c1 : cond_transport_cb_issues_better_base r = false := by
        simp [cond_transport_cb_issues_better_base, hs]
      have c2 : cond_transport_cb_issues_supply_side_tech r = false := by
        simp [cond_transport_cb_issues_supply_side_tech, hs]
      have c3 : cond_cut_ben_in_half_all_plur r = false := by
        simp [cond_cut_ben_in_half_all_plur, hs]
      have c4 : cond_cut_ben_in_half_all_non_stopping_def_plur r = true := by
        simp [cond_cut_ben_in_half_all_non_stopping_def_plur, hs, hm]
      have c5 : cond_waso_cb_issue r = false := by
        simp [cond_waso_cb_issue, hs]
      simp [c1, c2, c3, c4, c5]
  · intro r hs hm
    unfold applyCbCorrections
    have c3 : cond_cut_ben_in_half_all_plur r = false := by
      simp [cond_cut_ben_in_half_all_plur, hs]
    have c4 : cond_cut_ben_in_half_all_non_stopping_def_plur r = false := by
      simp [cond_cut_ben_in_half_all_non_stopping_def_plur, hs]
    have c5 : cond_waso_cb_issue r = true := by
      simp [cond_waso_cb_issue, hs, hm]
    cases c1 : cond_transport_cb_issues_better_base r <;>
      cases c2 : cond_transport_cb_issues_supply_side_tech r <;>
      simp [c1, c2, c3, c4, c5]
  · intro r c1 c2 c3 c4 c5
    unfold applyCbCorrections
    simp [c1, c2, c3, c4, c5]
  · have hpipe : perform_postprocessing 10 2015
        [⟨"PFLO:ALL_PLUR", "congestion_benefit", 10, 100⟩]
        = [⟨"PFLO:ALL_PLUR", "congestion_benefit", 10, 100 * (1/2)⟩] := rfl
    rw [hpipe]
    norm_num

/-- C1 witness: the zeroing conjunct applied to a concrete
`PFLO:SUPPLY_SIDE_TECH` road-safety row. -/
theorem perform_postprocessing_rules123_witness :
    (applyCbCorrections
      ⟨"PFLO:SUPPLY_SIDE_TECH", "road_safety_cost", 10, 42⟩).value = 0 :=
  perform_postprocessing_rules123.1
    ⟨"PFLO:SUPPLY_SIDE_TECH", "road_safety_cost", 10, 42⟩
    (Or.inr rfl) (by decide)

/-- C2: on tables whose rows all have non-negative `time_period`, the
final rule equals: zero the post-rules-1-3 rows with
`time_period < TX_START` in place, and append, for each such row, one
shifted duplicate that keeps its post-rules-1-3 value (the appended
duplicates have `time_period ≥ TX_START`, so the zeroing touches exactly
the original pre-`TX_START` rows; rows at or after `TX_START` are neither
duplicated nor altered). -/
theorem perform_postprocessing_shift (txStart t0 : Int)
    (rows : List ResultRow) (h : ∀ r ∈ rows, 0 ≤ r.time_period) :
    perform_postprocessing txStart t0 rows =
      (rows.map applyCbCorrections).map
        (fun r => if r.time_period < txStart then { r with value := 0 } else r)
      ++ ((rows.map applyCbCorrections).filter
            (fun r => decide (r.time_period < txStart))).map
          (shiftRow txStart t0) := by
  unfold perform_postprocessing
  rw [List.map_append]
  congr 1
  rw [List.map_map]
  apply List.map_congr_left
  intro r hr
  rw [List.mem_filter] at hr
  obtain ⟨hrdf, hrlt⟩ := hr
  rw [decide_eq_true_eq] at hrlt
  rcases List.mem_map.mp hrdf with ⟨r0, hr0, rfl⟩
  have h0 : 0 ≤ r0.time_period := h r0 hr0
  have htp : (applyCbCorrections r0).time_period = r0.time_period := rfl
  show (if (shiftRow txStart t0 (applyCbCorrections r0)).time_period < txStart
      then _ else _) = _
  rw [if_neg]
  rw [show (shiftRow txStart t0 (applyCbCorrections r0)).time_period
    = (applyCbCorrections r0).time_period + txStart from rfl, htp]
  omega

/-- C2 witness: the shift characterisation applied to a concrete
single-row table with `0 ≤ time_period = 5 < TX_START = 10`. -/
theorem perform_postprocessing_shift_witness :
    perform_postprocessing 10 2015 [⟨"S", "cost", 5, 7⟩]
      = ([⟨"S", "cost", 5, 7⟩].map applyCbCorrections).map
          (fun r => if r.time_period < 10 then { r with value := 0 } else r)
        ++ (([⟨"S", "cost", 5, 7⟩].map applyCbCorrections).filter
              (fun r => decide (r.time_period < 10))).map (shiftRow 10 2015) :=
  perform_postprocessing_shift 10 2015 [⟨"S", "cost", 5, 7⟩] (by decide)

end CbUtils


